import Mathlib

/-!
Verification of the ProofX Compliance Proof Verification Protocol.

This file gives a shallow embedding of the three core components of the
repository and proves the specified properties about them:

* the Circom constraint system `CapitalAdequacy(64)` from
  `src/circuits/compliance.circom` (shipped inside `src/circuits/README.md`),
  together with the circomlib gadgets `Num2Bits`, `LessThan`, `GreaterThan`
  and `GreaterEqThan` it instantiates;
* the witness/proof generator `generateRealProof` from
  `src/app/api/prove/route.ts` (local pre-check and commitment computation);
* the Solidity gateway contract `ProofXVerifier` (the Groth16-backed variant
  shipped inside `src/components/navigation.tsx`): `verifyProof`,
  `verifyProofSimple`, `pause`, `unpause`, the OpenZeppelin
  `AccessControl`/`Pausable` role machinery it inherits, and the view
  functions `isVerified`, `getVerification`.

External cryptographic capabilities (keccak256, ECDSA recovery, the Groth16
pairing check) are consumed by the repository as black boxes and are modelled
here as explicit function parameters.
-/

namespace ProofX

/-! # The scalar field of BN254

Circom's default field (used by `pragma circom 2.1.6` circuits compiled for
Groth16 over BN254, as this repository does): all signals are residues
modulo the prime `p` below.  We represent field elements as natural numbers
together with explicit reductions `% p`. -/

/-- The BN254 scalar field modulus used by Circom/snarkjs/Groth16. -/
def p : Nat :=
  21888242871839275222246405745257275088548364400416034343698204186575808495617

/-! # Bit decomposition, following circomlib `bitify.circom` -/

/-- Numeric value of one bit signal. -/
def bitVal (b : Bool) : Nat := if b then 1 else 0

/-- Value of a little-endian list of bit signals: `Σ bits[i] * 2^i`.
This is the linear combination `lc1` accumulated by circomlib `Num2Bits`. -/
def bitsToNat : List Bool → Nat
  | [] => 0
  | b :: bs => bitVal b + 2 * bitsToNat bs

/-- The canonical `n`-bit little-endian decomposition of `x`
(this is the witness `(in >> i) & 1` that `Num2Bits` assigns). -/
def natToBits : Nat → Nat → List Bool
  | 0, _ => []
  | n + 1, x => (x % 2 == 1) :: natToBits n (x / 2)

/-- circomlib `Num2Bits(n)`: there are `n` boolean signals whose weighted
sum equals the input in the field.  Booleanity (`out[i]*(out[i]-1)===0`) is
captured by using `Bool` for each bit. -/
def Num2Bits (n x : Nat) : Prop :=
  ∃ bs : List Bool, bs.length = n ∧ bitsToNat bs % p = x % p

/-- circomlib `LessThan(n)`: decompose `in[0] + 2^n - in[1]` (a field
expression) with `Num2Bits(n+1)` and output `1 - bits[n]`.  The
compile-time `assert(n <= 252)` is kept as a conjunct. -/
def LessThan (n a b out : Nat) : Prop :=
  n ≤ 252 ∧
  ∃ bs : List Bool, bs.length = n + 1 ∧
    bitsToNat bs % p = (a % p + 2 ^ n + (p - b % p)) % p ∧
    out % p = (1 + (p - bitVal (bs.getD n false))) % p

/-- circomlib `GreaterThan(n)`: `LessThan(n)` with swapped inputs. -/
def GreaterThan (n a b out : Nat) : Prop :=
  LessThan n b a out

/-- circomlib `GreaterEqThan(n)`: `LessThan(n)` on `(in[1], in[0]+1)`. -/
def GreaterEqThan (n a b out : Nat) : Prop :=
  LessThan n b (a + 1) out

/-- The `CapitalAdequacy(N_BITS)` template of `compliance.circom`:
* `assert(N_BITS < 254)`;
* `GreaterEqThan(N_BITS)` on `(assets, liabilities)` with output forced
  to `1`;
* `Num2Bits(N_BITS)` range checks on `assets`, `liabilities`, `threshold`;
* `capital <== assets - liabilities` (field subtraction);
* `GreaterThan(N_BITS)` on `(capital, threshold)` with output forced to `1`.

Satisfiability of the constraint system is the conjunction of all
constraints, with the intermediate signals existentially quantified. -/
def CapitalAdequacy (nBits assets liabilities threshold : Nat) : Prop :=
  nBits < 254 ∧
  (∃ geOut, GreaterEqThan nBits assets liabilities geOut ∧ geOut % p = 1) ∧
  Num2Bits nBits assets ∧
  Num2Bits nBits liabilities ∧
  Num2Bits nBits threshold ∧
  ∃ capital gtOut,
    capital % p = (assets % p + (p - liabilities % p)) % p ∧
    GreaterThan nBits capital threshold gtOut ∧ gtOut % p = 1

/-! # Canonical ABI encoding and the ProofCommitment

The Gateway computes `proofHash = keccak256(abi.encode(_pA, _pB, _pC,
_pubSignals[0]))`; the Generator computes
`ethers.keccak256(AbiCoder.defaultAbiCoder().encode(['uint256[2]',
'uint256[2][2]', 'uint256[2]', 'uint256'], [a, b, c, publicSignals[0]]))`.
Both ABI-encode a tuple of statically-sized unsigned integers, i.e. the
concatenation of nine 32-byte big-endian words.  keccak256 itself is an
external primitive and is modelled as a function parameter. -/

/-- A Groth16 proof in the wire shape the contract consumes:
`a : uint[2]`, `b : uint[2][2]`, `c : uint[2]`. -/
structure G16Proof where
  a0 : Nat
  a1 : Nat
  b00 : Nat
  b01 : Nat
  b10 : Nat
  b11 : Nat
  c0 : Nat
  c1 : Nat
deriving DecidableEq

/-- All components are `uint256` values. -/
def G16Proof.wf (pf : G16Proof) : Prop :=
  pf.a0 < 2 ^ 256 ∧ pf.a1 < 2 ^ 256 ∧ pf.b00 < 2 ^ 256 ∧ pf.b01 < 2 ^ 256 ∧
  pf.b10 < 2 ^ 256 ∧ pf.b11 < 2 ^ 256 ∧ pf.c0 < 2 ^ 256 ∧ pf.c1 < 2 ^ 256

/-- Little-endian byte expansion into `n` bytes. -/
def leBytes : Nat → Nat → List Nat
  | 0, _ => []
  | n + 1, x => x % 256 :: leBytes n (x / 256)

/-- Byte-list valuation (little-endian). -/
def leBytesVal : List Nat → Nat
  | [] => 0
  | b :: bs => b + 256 * leBytesVal bs

/-- A 32-byte big-endian ABI word of a `uint256` value. -/
def word (x : Nat) : List Nat := (leBytes 32 x).reverse

/-- ABI encoding of a tuple of statically-sized unsigned integers:
the concatenation of their words. -/
def encodeWords (ws : List Nat) : List Nat := (ws.map word).flatten

/-- Gateway-side ABI encoding, from `ProofXVerifier.verifyProof`:
`abi.encode(_pA, _pB, _pC, _pubSignals[0])` — nine words in declaration
order. -/
def gatewayEncode (pf : G16Proof) (pubSignal0 : Nat) : List Nat :=
  encodeWords [pf.a0, pf.a1, pf.b00, pf.b01, pf.b10, pf.b11, pf.c0, pf.c1,
    pubSignal0]

/-- The `ProofCommitment` computed by the Gateway: `keccak256` of the
canonical encoding, with keccak256 passed in as a black box. -/
def gatewayCommitment (keccak : List Nat → Nat) (pf : G16Proof)
    (pubSignal0 : Nat) : Nat :=
  keccak (gatewayEncode pf pubSignal0)

/-- A raw snarkjs proof as returned by `snarkjs.groth16.fullProve`
(the coordinates consumed by `route.ts`). -/
structure SnarkjsProof where
  piA0 : Nat
  piA1 : Nat
  piB00 : Nat
  piB01 : Nat
  piB10 : Nat
  piB11 : Nat
  piC0 : Nat
  piC1 : Nat
deriving DecidableEq

/-- The `Format for Contract` step of `generateRealProof` in `route.ts`:
`a = [pi_a[0], pi_a[1]]`, `b = [[pi_b[0][1], pi_b[0][0]],
[pi_b[1][1], pi_b[1][0]]]` (inner pairs swapped for the EVM pairing
convention), `c = [pi_c[0], pi_c[1]]`. -/
def formatProof (sp : SnarkjsProof) : G16Proof :=
  { a0 := sp.piA0, a1 := sp.piA1
    b00 := sp.piB01, b01 := sp.piB00
    b10 := sp.piB11, b11 := sp.piB10
    c0 := sp.piC0, c1 := sp.piC1 }

/-- Generator-side ABI encoding, from `generateRealProof` in `route.ts`:
`AbiCoder.defaultAbiCoder().encode(['uint256[2]', 'uint256[2][2]',
'uint256[2]', 'uint256'], [formattedProof.a, formattedProof.b,
formattedProof.c, publicSignals[0]])` — the words of the formatted
components in order. -/
def generatorEncode (sp : SnarkjsProof) (pubSignal0 : Nat) : List Nat :=
  encodeWords [sp.piA0, sp.piA1, sp.piB01, sp.piB00, sp.piB11, sp.piB10,
    sp.piC0, sp.piC1, pubSignal0]

/-- The commitment computed by the Generator (`ethers.keccak256` of the
encoding above). -/
def generatorCommitment (keccak : List Nat → Nat) (sp : SnarkjsProof)
    (pubSignal0 : Nat) : Nat :=
  keccak (generatorEncode sp pubSignal0)

/-- The all-zero wire proof (both `a` components equal). -/
def zeroG16Proof : G16Proof := ⟨0, 0, 0, 0, 0, 0, 0, 0⟩

/-- Swapping the two sub-elements of `a` — a reordering of sub-elements of
the proof. -/
def swapA (pf : G16Proof) : G16Proof :=
  { pf with a0 := pf.a1, a1 := pf.a0 }

/-! # The Commitment/Authorization Gateway: contract `ProofXVerifier`

State and operations of the Groth16-backed `ProofXVerifier` contract,
including the OpenZeppelin `AccessControl` role table and `Pausable` flag
it inherits.  Addresses and role identifiers are modelled as naturals;
the three role constants (`DEFAULT_ADMIN_ROLE = 0x00`,
`keccak256("SIGNER_ROLE")`, `keccak256("PAUSER_ROLE")`) are distinct
32-byte constants, modelled as the distinct tokens below. -/

/-- `DEFAULT_ADMIN_ROLE` (0x00). -/
def DEFAULT_ADMIN_ROLE : Nat := 0

/-- `SIGNER_ROLE = keccak256("SIGNER_ROLE")`, a constant distinct from the
other two roles. -/
def SIGNER_ROLE : Nat := 1

/-- `PAUSER_ROLE = keccak256("PAUSER_ROLE")`, a constant distinct from the
other two roles. -/
def PAUSER_ROLE : Nat := 2

/-- The `VerificationRecord` struct of `ProofXVerifier`. -/
structure VerificationRecord where
  proofHash : Nat
  timestamp : Nat
  threshold : Nat
  verified : Bool
deriving DecidableEq

/-- Solidity mapping default: the zero-initialised record. -/
def emptyRecord : VerificationRecord := ⟨0, 0, 0, false⟩

/-- The mutable contract state: `verifications`, `usedProofHashes`,
`totalVerifications`, the `Pausable` flag and the `AccessControl` role
table (`hasRole role account`). -/
structure GatewayState where
  verifications : Nat → VerificationRecord
  usedProofHashes : Nat → Bool
  totalVerifications : Nat
  paused : Bool
  hasRole : Nat → Nat → Bool

/-- The external capabilities the contract consumes as black boxes:
keccak256, the `MessageHashUtils.toEthSignedMessageHash` domain
separation, OpenZeppelin `ECDSA.recover` (`none` models its revert on an
invalid signature), and the `Groth16Verifier.verifyProof` pairing check. -/
structure Env where
  keccak : List Nat → Nat
  toEthSignedMessageHash : Nat → Nat
  recover : Nat → List Nat → Option Nat
  zkVerify : G16Proof → Nat → Bool

/-- The custom errors of `ProofXVerifier`, plus the `Pausable` revert. -/
inductive VerifyError where
  | enforcedPause
  | proofAlreadyUsed
  | invalidSignature
  | unauthorizedSigner
  | invalidProof
deriving DecidableEq

/-- The `ProofVerified` event. -/
structure ProofVerifiedEvent where
  signer : Nat
  submitter : Nat
  proofHash : Nat
  threshold : Nat
  verified : Bool
  timestamp : Nat
deriving DecidableEq

/-- The proof hash the contract computes in step 1 of `verifyProof`:
`keccak256(abi.encode(_pA, _pB, _pC, _pubSignals[0]))`. -/
def proofHashOf (env : Env) (pf : G16Proof) (pubSignal0 : Nat) : Nat :=
  env.keccak (gatewayEncode pf pubSignal0)

/-- `ProofXVerifier.verifyProof`: the authorized submission entry point.
Modifier `whenNotPaused`, then (1) commitment, (2) replay check,
(3) signature recovery over the eth-signed hash + `SIGNER_ROLE` check,
(4) pairing check, (5) state update + event.  A revert is modelled as
`Except.error`; on success the new state, the emitted event and the
returned boolean are produced. -/
def verifyProof (env : Env) (st : GatewayState) (sender ts : Nat)
    (pf : G16Proof) (pubSignal0 : Nat) (sig : List Nat) :
    Except VerifyError (GatewayState × ProofVerifiedEvent × Bool) :=
  if st.paused then .error .enforcedPause
  else
    let proofHash := proofHashOf env pf pubSignal0
    if st.usedProofHashes proofHash then .error .proofAlreadyUsed
    else
      match env.recover (env.toEthSignedMessageHash proofHash) sig with
      | none => .error .invalidSignature
      | some signer =>
        if st.hasRole SIGNER_ROLE signer then
          let verified := env.zkVerify pf pubSignal0
          if verified then
            .ok
              ({ st with
                  usedProofHashes := fun h =>
                    if h = proofHash then true else st.usedProofHashes h
                  verifications := fun a =>
                    if a = signer then
                      ⟨proofHash, ts % 2 ^ 64, pubSignal0 % 2 ^ 64, true⟩
                    else st.verifications a
                  totalVerifications :=
                    (st.totalVerifications + 1) % 2 ^ 256 },
                ⟨signer, sender, proofHash, pubSignal0, true, ts⟩,
                true)
          else .error .invalidProof
        else .error .unauthorizedSigner

/-- `ProofXVerifier.verifyProofSimple`: the permissionless variant.  The
`SIGNER_ROLE` check on `msg.sender` is commented out in the source
(`HACKATHON: Allow anyone`); the caller is recorded as both signer and
submitter. -/
def verifyProofSimple (env : Env) (st : GatewayState) (sender ts : Nat)
    (pf : G16Proof) (pubSignal0 : Nat) :
    Except VerifyError (GatewayState × ProofVerifiedEvent × Bool) :=
  if st.paused then .error .enforcedPause
  else
    let proofHash := proofHashOf env pf pubSignal0
    if st.usedProofHashes proofHash then .error .proofAlreadyUsed
    else
      let verified := env.zkVerify pf pubSignal0
      if verified then
        .ok
          ({ st with
              usedProofHashes := fun h =>
                if h = proofHash then true else st.usedProofHashes h
              verifications := fun a =>
                if a = sender then
                  ⟨proofHash, ts % 2 ^ 64, pubSignal0 % 2 ^ 64, true⟩
                else st.verifications a
              totalVerifications :=
                (st.totalVerifications + 1) % 2 ^ 256 },
            ⟨sender, sender, proofHash, pubSignal0, true, ts⟩,
            true)
      else .error .invalidProof

/-- Reverts of the admin entry points: `AccessControl`'s missing-role
revert, and the two `Pausable` guards. -/
inductive AdminError where
  | missingRole
  | enforcedPause
  | expectedPause
deriving DecidableEq

/-- `ProofXVerifier.pause`: `onlyRole(PAUSER_ROLE)`, then `_pause()`
(which itself carries `whenNotPaused`). -/
def pause (st : GatewayState) (sender : Nat) :
    Except AdminError GatewayState :=
  if st.hasRole PAUSER_ROLE sender then
    if st.paused then .error .enforcedPause
    else .ok { st with paused := true }
  else .error .missingRole

/-- `ProofXVerifier.unpause`: `onlyRole(PAUSER_ROLE)`, then `_unpause()`
(which carries `whenPaused`). -/
def unpause (st : GatewayState) (sender : Nat) :
    Except AdminError GatewayState :=
  if st.hasRole PAUSER_ROLE sender then
    if st.paused then .ok { st with paused := false }
    else .error .expectedPause
  else .error .missingRole

/-- OpenZeppelin `AccessControl.grantRole`: `onlyRole(getRoleAdmin(role))`
(the role admin is `DEFAULT_ADMIN_ROLE` for every role here), then
`_grantRole` sets membership. -/
def grantRole (st : GatewayState) (sender role acct : Nat) :
    Except AdminError GatewayState :=
  if st.hasRole DEFAULT_ADMIN_ROLE sender then
    .ok { st with hasRole := fun r a =>
      if r = role ∧ a = acct then true else st.hasRole r a }
  else .error .missingRole

/-- OpenZeppelin `AccessControl.revokeRole`. -/
def revokeRole (st : GatewayState) (sender role acct : Nat) :
    Except AdminError GatewayState :=
  if st.hasRole DEFAULT_ADMIN_ROLE sender then
    .ok { st with hasRole := fun r a =>
      if r = role ∧ a = acct then false else st.hasRole r a }
  else .error .missingRole

/-- View `isVerified`. -/
def isVerified (st : GatewayState) (signer : Nat) : Bool :=
  (st.verifications signer).verified

/-- View `getVerification`: `(proofHash, timestamp, threshold, verified)`. -/
def getVerification (st : GatewayState) (signer : Nat) :
    Nat × Nat × Nat × Bool :=
  ((st.verifications signer).proofHash, (st.verifications signer).timestamp,
    (st.verifications signer).threshold, (st.verifications signer).verified)

/-- One externally-submitted transaction against the contract. -/
inductive Op where
  | verify (sender ts : Nat) (pf : G16Proof) (pubSignal0 : Nat)
      (sig : List Nat)
  | verifySimple (sender ts : Nat) (pf : G16Proof) (pubSignal0 : Nat)
  | doPause (sender : Nat)
  | doUnpause (sender : Nat)
  | grant (sender role acct : Nat)
  | revoke (sender role acct : Nat)

/-- Transaction semantics with revert rollback: a failing call leaves the
state unchanged. -/
def applyOp (env : Env) (st : GatewayState) : Op → GatewayState
  | .verify sender ts pf ps sig =>
    match verifyProof env st sender ts pf ps sig with
    | .ok (st', _, _) => st'
    | .error _ => st
  | .verifySimple sender ts pf ps =>
    match verifyProofSimple env st sender ts pf ps with
    | .ok (st', _, _) => st'
    | .error _ => st
  | .doPause sender =>
    match pause st sender with
    | .ok st' => st'
    | .error _ => st
  | .doUnpause sender =>
    match unpause st sender with
    | .ok st' => st'
    | .error _ => st
  | .grant sender role acct =>
    match grantRole st sender role acct with
    | .ok st' => st'
    | .error _ => st
  | .revoke sender role acct =>
    match revokeRole st sender role acct with
    | .ok st' => st'
    | .error _ => st

/-- A totally ordered sequence of transactions, applied one at a time. -/
def applyOps (env : Env) (st : GatewayState) (ops : List Op) : GatewayState :=
  ops.foldl (applyOp env) st

/-! # The Witness/Proof Generator: `generateRealProof` in `route.ts` -/

/-- Typed failures of `generateRealProof`: the two thrown compliance
errors (`Assets must be >= Liabilities`, `Capital adequacy check failed`)
and a snarkjs prover failure (`SnarkJS Error: ...`). -/
inductive GenError where
  | assetsMustBeGteLiabilities
  | capitalAdequacyCheckFailed
  | snarkjsError
deriving DecidableEq

/-- `generateRealProof` from `src/app/api/prove/route.ts`: the inputs are
parsed as exact integers (`BigInt`), the local compliance pre-check
(`assets >= liabilities`, then `assets - liabilities > threshold`) runs
before any proof construction, then the snarkjs prover (a black-box
parameter returning a proof and the public signals, or failing) is
invoked, the proof is formatted for the contract and the commitment is
computed. -/
def generateRealProof
    (prover : Int → Int → Int → Option (SnarkjsProof × Nat))
    (keccak : List Nat → Nat) (assets liabilities threshold : Int) :
    Except GenError (G16Proof × Nat × Nat) :=
  if assets < liabilities then .error .assetsMustBeGteLiabilities
  else if assets - liabilities ≤ threshold then
    .error .capitalAdequacyCheckFailed
  else
    match prover assets liabilities threshold with
    | none => .error .snarkjsError
    | some (sp, ps0) =>
      .ok (formatProof sp, ps0, generatorCommitment keccak sp ps0)

def keccakW : List Nat → Nat := fun _ => 42

def proverW : Int → Int → Int → Option (SnarkjsProof × Nat) :=
  fun _ _ _ => some (⟨1, 2, 3, 4, 5, 6, 7, 8⟩, 500000)

/-! ## Concrete fixtures used by witnesses and counterexamples -/

/-- A concrete black-box environment: constant hash, shifted
domain-separation wrapper, recovery returning address 7, accepting
pairing check. -/
def envW : Env :=
  { keccak := keccakW
    toEthSignedMessageHash := fun h => h + 1
    recover := fun _ _ => some 7
    zkVerify := fun _ _ => true }

/-- The same environment with a rejecting pairing check. -/
def envRejW : Env := { envW with zkVerify := fun _ _ => false }

def pfW : G16Proof := ⟨1, 2, 3, 4, 5, 6, 7, 8⟩

/-- A fresh active state in which address 7 holds every role. -/
def stW : GatewayState :=
  { verifications := fun _ => emptyRecord
    usedProofHashes := fun _ => false
    totalVerifications := 0
    paused := false
    hasRole := fun _ a => a == 7 }

/-- A fresh active state with an empty role table. -/
def stNoRoles : GatewayState :=
  { stW with hasRole := fun _ _ => false }

/-- A paused state in which address 7 holds every role. -/
def stPausedW : GatewayState :=
  { stW with paused := true }

/-- The state after the successful `verifyProof` run used in witnesses
(signer 7, proof hash 42, public signal 5, timestamp 100). -/
def stPW : GatewayState :=
  { stW with
    usedProofHashes := fun h => if h = 42 then true else false
    verifications := fun a =>
      if a = 7 then ⟨42, 100, 5, true⟩ else emptyRecord
    totalVerifications := 1 }

def evPW : ProofVerifiedEvent := ⟨7, 3, 42, 5, true, 100⟩

/-- The state after the successful `verifyProofSimple` run of caller 9 on
the roleless state. -/
def stSimpleW : GatewayState :=
  { stNoRoles with
    usedProofHashes := fun h => if h = 42 then true else false
    verifications := fun a =>
      if a = 9 then ⟨42, 100, 5, true⟩ else emptyRecord
    totalVerifications := 1 }

def stP64W : GatewayState :=
  { stW with
    usedProofHashes := fun h => if h = 42 then true else false
    verifications := fun a =>
      if a = 7 then ⟨42, 100, 0, true⟩ else emptyRecord
    totalVerifications := 1 }

def evP64W : ProofVerifiedEvent := ⟨7, 3, 42, 2 ^ 64, true, 100⟩

/-! # Proved properties and claim theorems -/

theorem one_lt_p : 1 < p := by decide

theorem two_pow_65_le_p : 2 ^ 65 ≤ p := by decide

/-! ## Gadget characterisation lemmas -/

theorem bitVal_true : bitVal true = 1 := rfl

theorem bitVal_false : bitVal false = 0 := rfl

theorem bitsToNat_lt (bs : List Bool) : bitsToNat bs < 2 ^ bs.length := by
  induction bs with
  | nil => simp [bitsToNat]
  | cons b bs ih =>
    simp only [bitsToNat, List.length_cons, pow_succ]
    cases b <;> simp [bitVal] <;> omega

theorem natToBits_length (n x : Nat) : (natToBits n x).length = n := by
  induction n generalizing x with
  | zero => rfl
  | succ n ih => simp [natToBits, ih]

theorem mod_two_pow_succ (n x : Nat) :
    x % 2 ^ (n + 1) = x % 2 + 2 * (x / 2 % 2 ^ n) := by
  have h1 := Nat.div_add_mod x 2
  have h2 := Nat.div_add_mod (x / 2) (2 ^ n)
  have h0 : 0 < 2 ^ n := Nat.pos_pow_of_pos n (by omega)
  have hm2 : x % 2 < 2 := Nat.mod_lt x (by omega)
  have hmn : x / 2 % 2 ^ n < 2 ^ n := Nat.mod_lt _ h0
  have hx : x = (x % 2 + 2 * (x / 2 % 2 ^ n)) + 2 ^ (n + 1) * (x / 2 / 2 ^ n) := by
    rw [pow_succ, mul_comm (2 ^ n) 2, mul_assoc]
    omega
  conv_lhs => rw [hx]
  rw [Nat.add_mul_mod_self_left,
    Nat.mod_eq_of_lt (by rw [pow_succ]; omega)]

theorem bitsToNat_natToBits (n x : Nat) :
    bitsToNat (natToBits n x) = x % 2 ^ n := by
  induction n generalizing x with
  | zero => simp [natToBits, bitsToNat, Nat.mod_one]
  | succ n ih =>
    show bitVal (x % 2 == 1) + 2 * bitsToNat (natToBits n (x / 2)) = x % 2 ^ (n + 1)
    have hb : bitVal (x % 2 == 1) = x % 2 := by
      rcases Nat.mod_two_eq_zero_or_one x with h | h <;> simp [h, bitVal]
    rw [hb, ih, mod_two_pow_succ]

theorem bitsToNat_topBit (n : Nat) (bs : List Bool) (h : bs.length = n + 1) :
    bitsToNat bs / 2 ^ n = bitVal (bs.getD n false) := by
  induction n generalizing bs with
  | zero =>
    match bs, h with
    | [b], _ => cases b <;> simp [bitsToNat, bitVal]
  | succ n ih =>
    match bs, h with
    | b :: bs, h =>
      have hlen : bs.length = n + 1 := by simpa using h
      have hstep : bitsToNat (b :: bs) / 2 ^ (n + 1) = bitsToNat bs / 2 ^ n := by
        rw [show bitsToNat (b :: bs) = bitVal b + 2 * bitsToNat bs from rfl,
          pow_succ, mul_comm (2 ^ n) 2, ← Nat.div_div_eq_div_mul,
          Nat.add_mul_div_left _ _ (by omega : (0:Nat) < 2)]
        have : bitVal b / 2 = 0 := by cases b <;> simp [bitVal]
        rw [this, Nat.zero_add]
      rw [hstep, ih bs hlen]
      rfl

/-- Characterisation of `Num2Bits n` on a reduced field element `x < p`
when `2^n ≤ p`: the range check is satisfiable exactly for `x < 2^n`. -/
theorem num2Bits_iff (n x : Nat) (hx : x < p) (hn : 2 ^ n ≤ p) :
    Num2Bits n x ↔ x < 2 ^ n := by
  constructor
  · rintro ⟨bs, hlen, hsum⟩
    have hlt : bitsToNat bs < 2 ^ n := hlen ▸ bitsToNat_lt bs
    have h1 : bitsToNat bs % p = bitsToNat bs :=
      Nat.mod_eq_of_lt (lt_of_lt_of_le hlt hn)
    have h2 : x % p = x := Nat.mod_eq_of_lt hx
    rw [h1, h2] at hsum
    omega
  · intro hlt
    exact ⟨natToBits n x, natToBits_length n x, by
      rw [bitsToNat_natToBits, Nat.mod_eq_of_lt hlt]⟩

/-- Characterisation of a `LessThan n` gadget whose output is constrained
to `1`, on inputs whose residues satisfy `a % p < 2^n` and `b % p ≤ 2^n`
(the circuit guarantees these via its `Num2Bits` range checks; the `+1`
input of `GreaterEqThan` can reach `2^n` exactly).  Requires
`2^(n+1) ≤ p`, the bit-width-safety condition: the decomposed value then
never wraps around the field modulus. -/
theorem lessThan_one_iff (n a b : Nat) (hn252 : n ≤ 252)
    (ha : a % p < 2 ^ n) (hb : b % p ≤ 2 ^ n) (hn : 2 ^ (n + 1) ≤ p) :
    (∃ out, LessThan n a b out ∧ out % p = 1) ↔ a % p < b % p := by
  have hp1 : 1 < p := one_lt_p
  have hpow : 2 ^ (n + 1) = 2 ^ n * 2 := pow_succ 2 n
  have hbp : b % p < p := Nat.mod_lt _ (by omega)
  have hw : a % p + 2 ^ n + (p - b % p) = (a % p + 2 ^ n - b % p) + p := by
    omega
  have hwlt : a % p + 2 ^ n - b % p < 2 ^ (n + 1) := by omega
  have hv : (a % p + 2 ^ n + (p - b % p)) % p = a % p + 2 ^ n - b % p := by
    rw [hw, Nat.add_mod_right, Nat.mod_eq_of_lt (by omega)]
  constructor
  · rintro ⟨out, ⟨-, bs, hlen, hsum, hout⟩, hout1⟩
    rw [hv] at hsum
    have hlt : bitsToNat bs < 2 ^ (n + 1) := hlen ▸ bitsToNat_lt bs
    have hbs : bitsToNat bs % p = bitsToNat bs := Nat.mod_eq_of_lt (by omega)
    rw [hbs] at hsum
    have htop := bitsToNat_topBit n bs hlen
    rw [hout1] at hout
    -- the constrained output forces the top bit to be zero
    cases hgd : bs.getD n false with
    | true =>
      exfalso
      rw [hgd, bitVal_true] at hout
      rw [show 1 + (p - 1) = p by omega, Nat.mod_self] at hout
      omega
    | false =>
      rw [hgd, bitVal_false] at htop
      have hdiv : bitsToNat bs < 2 ^ n := by
        by_contra hge
        push_neg at hge
        have h1 : 1 ≤ bitsToNat bs / 2 ^ n :=
          (Nat.one_le_div_iff (Nat.pos_pow_of_pos n (by omega))).mpr hge
        omega
      omega
  · intro hab
    have hsmall : a % p + 2 ^ n - b % p < 2 ^ n := by omega
    refine ⟨1, ⟨hn252, natToBits (n + 1) (a % p + 2 ^ n - b % p),
      natToBits_length _ _, ?_, ?_⟩, Nat.mod_eq_of_lt one_lt_p⟩
    · rw [bitsToNat_natToBits, hv, Nat.mod_eq_of_lt hwlt,
        Nat.mod_eq_of_lt (by omega : a % p + 2 ^ n - b % p < p)]
    · have htop := bitsToNat_topBit n (natToBits (n + 1) (a % p + 2 ^ n - b % p))
        (natToBits_length _ _)
      rw [bitsToNat_natToBits, Nat.mod_eq_of_lt hwlt,
        Nat.div_eq_of_lt hsmall] at htop
      have hfalse : (natToBits (n + 1) (a % p + 2 ^ n - b % p)).getD n false
          = false := by
        cases hgd : (natToBits (n + 1) (a % p + 2 ^ n - b % p)).getD n false
        · rfl
        · rw [hgd, bitVal_true] at htop
          omega
      rw [hfalse, bitVal_false, Nat.sub_zero, Nat.add_mod_right]

/-- Field subtraction of reduced elements with no underflow:
`(a - b) mod p = a - b` when `b ≤ a < p`. -/
theorem field_sub_eq (a b : Nat) (hba : b ≤ a) (ha : a < p) (hb : b < p) :
    (a % p + (p - b % p)) % p = a - b := by
  rw [Nat.mod_eq_of_lt ha, Nat.mod_eq_of_lt hb,
    show a + (p - b) = (a - b) + p by omega, Nat.add_mod_right,
    Nat.mod_eq_of_lt (by omega)]

/-- Satisfiability of `CapitalAdequacy(64)` on field-element inputs:
exactly the triples with all values below `2^64`, `assets ≥ liabilities`
and `assets - liabilities > threshold` (strict) admit a witness. -/
theorem capitalAdequacy_sat_iff (a l t : Nat) (ha : a < p) (hl : l < p)
    (ht : t < p) :
    CapitalAdequacy 64 a l t ↔
      a < 2 ^ 64 ∧ l < 2 ^ 64 ∧ t < 2 ^ 64 ∧ l ≤ a ∧ t < a - l := by
  have hp1 : 1 < p := one_lt_p
  have h65 : 2 ^ (64 + 1) ≤ p := two_pow_65_le_p
  have h64 : 2 ^ 64 ≤ p := by
    refine le_trans ?_ h65
    norm_num
  have hma : a % p = a := Nat.mod_eq_of_lt ha
  have hml : l % p = l := Nat.mod_eq_of_lt hl
  have hmt : t % p = t := Nat.mod_eq_of_lt ht
  constructor
  · rintro ⟨-, ⟨geOut, hge, hge1⟩, hna, hnl, hnt,
      capital, gtOut, hcap, hgt, hgt1⟩
    have ha64 : a < 2 ^ 64 := (num2Bits_iff 64 a ha h64).mp hna
    have hl64 : l < 2 ^ 64 := (num2Bits_iff 64 l hl h64).mp hnl
    have ht64 : t < 2 ^ 64 := (num2Bits_iff 64 t ht h64).mp hnt
    have ha1 : (a + 1) % p = a + 1 := Nat.mod_eq_of_lt (by omega)
    have hla : l ≤ a := by
      have hlt := (lessThan_one_iff 64 l (a + 1) (by norm_num)
        (by rw [hml]; exact hl64) (by rw [ha1]; omega) h65).mp
        ⟨geOut, hge, hge1⟩
      rw [hml, ha1] at hlt
      omega
    have hcap' : capital % p = a - l := by
      rw [hcap]; exact field_sub_eq a l hla ha hl
    have hts : t < a - l := by
      have hlt := (lessThan_one_iff 64 t capital (by norm_num)
        (by rw [hmt]; exact ht64) (by rw [hcap']; omega) h65).mp
        ⟨gtOut, hgt, hgt1⟩
      rw [hmt, hcap'] at hlt
      exact hlt
    exact ⟨ha64, hl64, ht64, hla, hts⟩
  · rintro ⟨ha64, hl64, ht64, hla, hts⟩
    have ha1 : (a + 1) % p = a + 1 := Nat.mod_eq_of_lt (by omega)
    have hcapmod : (a - l) % p = a - l := Nat.mod_eq_of_lt (by omega)
    refine ⟨by norm_num, ?_,
      (num2Bits_iff 64 a ha h64).mpr ha64,
      (num2Bits_iff 64 l hl h64).mpr hl64,
      (num2Bits_iff 64 t ht h64).mpr ht64, ?_⟩
    · exact (lessThan_one_iff 64 l (a + 1) (by norm_num)
        (by rw [hml]; exact hl64) (by rw [ha1]; omega) h65).mpr
        (by rw [hml, ha1]; omega)
    · obtain ⟨out, hlt, hout⟩ := (lessThan_one_iff 64 t (a - l) (by norm_num)
        (by rw [hmt]; exact ht64) (by rw [hcapmod]; omega) h65).mpr
        (by rw [hmt, hcapmod]; exact hts)
      exact ⟨a - l, out,
        by rw [hcapmod, field_sub_eq a l hla ha hl], hlt, hout⟩

/-- Claim C3: the arithmetic constraint system `CapitalAdequacy(64)` is
satisfiable on inputs `(assets, liabilities, threshold)` if and only if all
three values lie in `[0, 2^64)`, `assets ≥ liabilities`, and
`assets - liabilities > threshold` (strict); in particular a witness with
capital exactly equal to the threshold — including
`capital = threshold = 0` — admits no valid proof. -/
theorem claim_C3_capitalAdequacy_satisfiability (a l t : Nat)
    (ha : a < p) (hl : l < p) (ht : t < p) :
    (CapitalAdequacy 64 a l t ↔
      a < 2 ^ 64 ∧ l < 2 ^ 64 ∧ t < 2 ^ 64 ∧ l ≤ a ∧ t < a - l) ∧
    (l ≤ a → a - l = t → ¬ CapitalAdequacy 64 a l t) := by
  refine ⟨capitalAdequacy_sat_iff a l t ha hl ht, ?_⟩
  intro hla hcap hsat
  have h := (capitalAdequacy_sat_iff a l t ha hl ht).mp hsat
  omega

theorem claim_C3_witness :
    (10 : Nat) < p ∧ CapitalAdequacy 64 10 3 5 ∧ ¬ CapitalAdequacy 64 0 0 0 := by
  refine ⟨by decide, ?_, ?_⟩
  · exact ((claim_C3_capitalAdequacy_satisfiability 10 3 5 (by decide)
      (by decide) (by decide)).1).mpr (by decide)
  · exact (claim_C3_capitalAdequacy_satisfiability 0 0 0 (by decide)
      (by decide) (by decide)).2 (by decide) (by decide)

/-- Claim C7: each of `assets`, `liabilities`, `threshold` is decomposed
into exactly 64 bits with exact reconstruction, so no field element whose
canonical representative is `≥ 2^64` (in particular any huge integer that
wraps modulo `p` to such a representative) satisfies the constraint
system; moreover the bit width 64 is below the ~254-bit field length
(`64 < 254`, `2^65 ≤ p`), so the comparator's internal 65-bit
decomposition value never wraps around the modulus. -/
theorem claim_C7_range_check_no_aliasing (a l t : Nat)
    (ha : a < p) (hl : l < p) (ht : t < p)
    (hbig : 2 ^ 64 ≤ a ∨ 2 ^ 64 ≤ l ∨ 2 ^ 64 ≤ t) :
    ¬ CapitalAdequacy 64 a l t ∧
    (64 < 254 ∧ 2 ^ (64 + 1) ≤ p) ∧
    (∀ x y : Nat, x < 2 ^ 64 → y ≤ 2 ^ 64 →
      (x + 2 ^ 64 + (p - y)) % p = x + 2 ^ 64 - y) := by
  refine ⟨?_, ⟨by norm_num, two_pow_65_le_p⟩, ?_⟩
  · intro hsat
    have h := (capitalAdequacy_sat_iff a l t ha hl ht).mp hsat
    omega
  · intro x y hx hy
    have hp1 : 1 < p := one_lt_p
    have h65 : 2 ^ (64 + 1) ≤ p := two_pow_65_le_p
    have hpow : (2 : Nat) ^ (64 + 1) = 2 ^ 64 * 2 := pow_succ 2 64
    rw [show x + 2 ^ 64 + (p - y) = (x + 2 ^ 64 - y) + p by omega,
      Nat.add_mod_right, Nat.mod_eq_of_lt (by omega)]

theorem claim_C7_witness :
    2 ^ 64 < p ∧ ¬ CapitalAdequacy 64 (2 ^ 64) 0 0 := by
  refine ⟨by decide, ?_⟩
  exact (claim_C7_range_check_no_aliasing (2 ^ 64) 0 0 (by decide) (by decide)
    (by decide) (Or.inl (by decide))).1

theorem leBytes_length (n x : Nat) : (leBytes n x).length = n := by
  induction n generalizing x with
  | zero => rfl
  | succ n ih => simp [leBytes, ih]

theorem mod_256_pow_succ (n x : Nat) :
    x % 256 ^ (n + 1) = x % 256 + 256 * (x / 256 % 256 ^ n) := by
  have h1 := Nat.div_add_mod x 256
  have h2 := Nat.div_add_mod (x / 256) (256 ^ n)
  have h0 : 0 < 256 ^ n := Nat.pos_pow_of_pos n (by omega)
  have hm2 : x % 256 < 256 := Nat.mod_lt x (by omega)
  have hmn : x / 256 % 256 ^ n < 256 ^ n := Nat.mod_lt _ h0
  have hx : x = (x % 256 + 256 * (x / 256 % 256 ^ n)) +
      256 ^ (n + 1) * (x / 256 / 256 ^ n) := by
    rw [pow_succ, mul_comm (256 ^ n) 256, mul_assoc]
    omega
  conv_lhs => rw [hx]
  rw [Nat.add_mul_mod_self_left,
    Nat.mod_eq_of_lt (by rw [pow_succ]; omega)]

theorem leBytesVal_leBytes (n x : Nat) :
    leBytesVal (leBytes n x) = x % 256 ^ n := by
  induction n generalizing x with
  | zero => simp [leBytes, leBytesVal, Nat.mod_one]
  | succ n ih =>
    show x % 256 + 256 * leBytesVal (leBytes n (x / 256)) = x % 256 ^ (n + 1)
    rw [ih, mod_256_pow_succ]

theorem leBytes_inj (n x y : Nat) (hx : x < 256 ^ n) (hy : y < 256 ^ n)
    (h : leBytes n x = leBytes n y) : x = y := by
  have hv := congrArg leBytesVal h
  rwa [leBytesVal_leBytes, leBytesVal_leBytes, Nat.mod_eq_of_lt hx,
    Nat.mod_eq_of_lt hy] at hv

theorem word_length (x : Nat) : (word x).length = 32 := by
  simp [word, leBytes_length]

theorem two_pow_256_eq : (2 : Nat) ^ 256 = 256 ^ 32 := by decide

theorem word_inj (x y : Nat) (hx : x < 2 ^ 256) (hy : y < 2 ^ 256)
    (h : word x = word y) : x = y := by
  rw [two_pow_256_eq] at hx hy
  exact leBytes_inj 32 x y hx hy (List.reverse_injective h)

theorem encodeWords_inj (xs ys : List Nat) (hlen : xs.length = ys.length)
    (hxs : ∀ x ∈ xs, x < 2 ^ 256) (hys : ∀ y ∈ ys, y < 2 ^ 256)
    (h : encodeWords xs = encodeWords ys) : xs = ys := by
  induction xs generalizing ys with
  | nil =>
    cases ys with
    | nil => rfl
    | cons y ys => simp at hlen
  | cons x xs ih =>
    cases ys with
    | nil => simp at hlen
    | cons y ys =>
      have h' : word x ++ encodeWords xs = word y ++ encodeWords ys := h
      have hsplit := List.append_inj h' (by rw [word_length, word_length])
      have hx := word_inj x y (hxs x (by simp)) (hys y (by simp)) hsplit.1
      have hrest := ih ys (by simpa using hlen)
        (fun z hz => hxs z (by simp [hz]))
        (fun z hz => hys z (by simp [hz])) hsplit.2
      rw [hx, hrest]

/-- The canonical encoding is injective on `uint256`-bounded components:
equal encodings force equal proofs and equal public signals. -/
theorem gatewayEncode_inj (pf pf' : G16Proof) (s s' : Nat)
    (hpf : pf.wf) (hpf' : pf'.wf) (hs : s < 2 ^ 256) (hs' : s' < 2 ^ 256)
    (h : gatewayEncode pf s = gatewayEncode pf' s') : pf = pf' ∧ s = s' := by
  obtain ⟨h1, h2, h3, h4, h5, h6, h7, h8⟩ := hpf
  obtain ⟨g1, g2, g3, g4, g5, g6, g7, g8⟩ := hpf'
  have hlists := encodeWords_inj
    [pf.a0, pf.a1, pf.b00, pf.b01, pf.b10, pf.b11, pf.c0, pf.c1, s]
    [pf'.a0, pf'.a1, pf'.b00, pf'.b01, pf'.b10, pf'.b11, pf'.c0, pf'.c1, s']
    rfl
    (by intro z hz; simp at hz
        rcases hz with h | h | h | h | h | h | h | h | h <;> omega)
    (by intro z hz; simp at hz
        rcases hz with h | h | h | h | h | h | h | h | h <;> omega)
    h
  simp only [List.cons.injEq, and_true] at hlists
  obtain ⟨e1, e2, e3, e4, e5, e6, e7, e8, e9⟩ := hlists
  cases pf; cases pf'
  simp_all

/-- Counterexample to claim C6 as stated: swapping the two sub-elements of
`a` does NOT always yield a different commitment — for a proof whose two
`a` components are equal (here the all-zero proof) the swapped proof
encodes to the same bytes, so even an injective hash (here a concrete
injective function on byte lists) returns the identical commitment. -/
theorem claim_C6_counterexample :
    Function.Injective (Encodable.encode : List Nat → Nat) ∧
    swapA zeroG16Proof = zeroG16Proof ∧
    gatewayCommitment Encodable.encode (swapA zeroG16Proof) 0 =
      gatewayCommitment Encodable.encode zeroG16Proof 0 :=
  ⟨Encodable.encode_injective, rfl, rfl⟩

/-- Claim C6 (amended): the ProofCommitment is a deterministic function of
`(a, b, c, publicSignals[0])` under the fixed canonical ABI encoding: the
same proof and public signals always yield the same commitment, the
Generator and the Gateway compute identical commitments for the same
formatted proof, and — for any injective (collision-free) hash — any
change of the proof or public signal, in particular any reordering of
sub-elements of `a`, `b` or `c` that changes the encoded value sequence,
yields a different commitment. -/
theorem claim_C6_commitment_canonical (keccak : List Nat → Nat)
    (hinj : Function.Injective keccak) :
    (∀ sp : SnarkjsProof, ∀ s : Nat,
      generatorCommitment keccak sp s =
        gatewayCommitment keccak (formatProof sp) s) ∧
    (∀ pf pf' : G16Proof, ∀ s s' : Nat, pf = pf' → s = s' →
      gatewayCommitment keccak pf s = gatewayCommitment keccak pf' s') ∧
    (∀ pf pf' : G16Proof, ∀ s s' : Nat, pf.wf → pf'.wf →
      s < 2 ^ 256 → s' < 2 ^ 256 → (pf ≠ pf' ∨ s ≠ s') →
      gatewayCommitment keccak pf s ≠ gatewayCommitment keccak pf' s') := by
  refine ⟨fun sp s => rfl, fun pf pf' s s' hp hs => by rw [hp, hs], ?_⟩
  intro pf pf' s s' hw hw' hs hs' hne heq
  have henc : gatewayEncode pf s = gatewayEncode pf' s' := hinj heq
  have heqc := gatewayEncode_inj pf pf' s s' hw hw' hs hs' henc
  rcases hne with hne | hne
  · exact hne heqc.1
  · exact hne heqc.2

theorem claim_C6_witness :
    (generatorCommitment Encodable.encode ⟨1, 2, 3, 4, 5, 6, 7, 8⟩ 9 =
      gatewayCommitment Encodable.encode
        (formatProof ⟨1, 2, 3, 4, 5, 6, 7, 8⟩) 9) ∧
    gatewayCommitment Encodable.encode ⟨1, 2, 3, 4, 5, 6, 7, 8⟩ 9 ≠
      gatewayCommitment Encodable.encode ⟨2, 1, 3, 4, 5, 6, 7, 8⟩ 9 := by
  constructor
  · exact (claim_C6_commitment_canonical Encodable.encode
      Encodable.encode_injective).1 ⟨1, 2, 3, 4, 5, 6, 7, 8⟩ 9
  · exact (claim_C6_commitment_canonical Encodable.encode
      Encodable.encode_injective).2.2 ⟨1, 2, 3, 4, 5, 6, 7, 8⟩
      ⟨2, 1, 3, 4, 5, 6, 7, 8⟩ 9 9
      (by constructor <;> decide)
      (by constructor <;> decide)
      (by decide) (by decide) (Or.inl (by decide))

/-- Inversion of a successful `verifyProof` call: every acceptance passed
the pause guard, the replay check, signature recovery, the `SIGNER_ROLE`
check and the pairing check, and the new state/event are exactly the step-5
updates. -/
theorem verifyProof_ok (env : Env) (st : GatewayState) (sender ts : Nat)
    (pf : G16Proof) (ps : Nat) (sig : List Nat)
    (st' : GatewayState) (ev : ProofVerifiedEvent) (v : Bool)
    (h : verifyProof env st sender ts pf ps sig = .ok (st', ev, v)) :
    ∃ signer,
      env.recover (env.toEthSignedMessageHash (proofHashOf env pf ps)) sig =
        some signer ∧
      st.paused = false ∧
      st.usedProofHashes (proofHashOf env pf ps) = false ∧
      st.hasRole SIGNER_ROLE signer = true ∧
      env.zkVerify pf ps = true ∧
      v = true ∧
      ev = ⟨signer, sender, proofHashOf env pf ps, ps, true, ts⟩ ∧
      st' = { st with
        usedProofHashes := fun h =>
          if h = proofHashOf env pf ps then true else st.usedProofHashes h
        verifications := fun a =>
          if a = signer then
            ⟨proofHashOf env pf ps, ts % 2 ^ 64, ps % 2 ^ 64, true⟩
          else st.verifications a
        totalVerifications := (st.totalVerifications + 1) % 2 ^ 256 } := by
  unfold verifyProof at h
  split at h
  · exact absurd h (by simp)
  · rename_i hpause
    dsimp only at h
    split at h
    · exact absurd h (by simp)
    · rename_i hused
      split at h
      · exact absurd h (by simp)
      · rename_i signer hrec
        split at h
        · rename_i hrole
          split at h
          · rename_i hzk
            simp only [Except.ok.injEq, Prod.mk.injEq] at h
            obtain ⟨hst, hev, hv⟩ := h
            refine ⟨signer, hrec, by simpa using hpause, by simpa using hused,
              hrole, hzk, hv.symm, hev.symm, hst.symm⟩
          · exact absurd h (by simp)
        · exact absurd h (by simp)

/-- Inversion of a successful `verifyProofSimple` call: the pause guard,
replay check and pairing check passed; no role check is performed and the
caller is recorded as signer and submitter. -/
theorem verifyProofSimple_ok (env : Env) (st : GatewayState)
    (sender ts : Nat) (pf : G16Proof) (ps : Nat)
    (st' : GatewayState) (ev : ProofVerifiedEvent) (v : Bool)
    (h : verifyProofSimple env st sender ts pf ps = .ok (st', ev, v)) :
    st.paused = false ∧
    st.usedProofHashes (proofHashOf env pf ps) = false ∧
    env.zkVerify pf ps = true ∧
    v = true ∧
    ev = ⟨sender, sender, proofHashOf env pf ps, ps, true, ts⟩ ∧
    st' = { st with
      usedProofHashes := fun h =>
        if h = proofHashOf env pf ps then true else st.usedProofHashes h
      verifications := fun a =>
        if a = sender then
          ⟨proofHashOf env pf ps, ts % 2 ^ 64, ps % 2 ^ 64, true⟩
        else st.verifications a
      totalVerifications := (st.totalVerifications + 1) % 2 ^ 256 } := by
  unfold verifyProofSimple at h
  split at h
  · exact absurd h (by simp)
  · rename_i hpause
    dsimp only at h
    split at h
    · exact absurd h (by simp)
    · rename_i hused
      split at h
      · rename_i hzk
        simp only [Except.ok.injEq, Prod.mk.injEq] at h
        obtain ⟨hst, hev, hv⟩ := h
        exact ⟨by simpa using hpause, by simpa using hused, hzk, hv.symm,
          hev.symm, hst.symm⟩
      · exact absurd h (by simp)

/-- Claim C5: the Generator runs the local pre-check before any proof
construction and fails — for every prover, with a pre-check error and
hence with no proof produced and no cryptographic work consulted — if and
only if `assets < liabilities` or `assets - liabilities ≤ threshold`;
when the pre-check fires the outcome is independent of the prover; in
particular `capital = threshold` is always rejected and
`capital = threshold + 1` passes the pre-check. -/
theorem claim_C5_precheck (keccak : List Nat → Nat)
    (assets liabilities threshold : Int) :
    ((∀ prover, ∃ e,
        generateRealProof prover keccak assets liabilities threshold =
          .error e ∧ e ≠ GenError.snarkjsError) ↔
      (assets < liabilities ∨ assets - liabilities ≤ threshold)) ∧
    ((assets < liabilities ∨ assets - liabilities ≤ threshold) →
      ∀ prover prover',
        generateRealProof prover keccak assets liabilities threshold =
          generateRealProof prover' keccak assets liabilities threshold) ∧
    (liabilities ≤ assets → assets - liabilities = threshold →
      ∀ prover,
        generateRealProof prover keccak assets liabilities threshold =
          .error .capitalAdequacyCheckFailed) ∧
    (liabilities ≤ assets → assets - liabilities = threshold + 1 →
      ∀ prover,
        generateRealProof prover keccak assets liabilities threshold ≠
            .error .assetsMustBeGteLiabilities ∧
          generateRealProof prover keccak assets liabilities threshold ≠
            .error .capitalAdequacyCheckFailed) := by
  refine ⟨⟨?_, ?_⟩, ?_, ?_, ?_⟩
  · intro hall
    by_contra hcond
    push_neg at hcond
    obtain ⟨h1, h2⟩ := hcond
    obtain ⟨e, he, hne⟩ := hall (fun _ _ _ => none)
    simp only [generateRealProof, if_neg (by omega : ¬ assets < liabilities),
      if_neg (by omega : ¬ assets - liabilities ≤ threshold)] at he
    exact hne (Except.error.inj he).symm
  · intro hcond prover
    by_cases h1 : assets < liabilities
    · exact ⟨.assetsMustBeGteLiabilities,
        by simp only [generateRealProof, if_pos h1], by decide⟩
    · have h2 : assets - liabilities ≤ threshold := by
        rcases hcond with h | h
        · exact absurd h h1
        · exact h
      exact ⟨.capitalAdequacyCheckFailed,
        by simp only [generateRealProof, if_neg h1, if_pos h2], by decide⟩
  · intro hcond prover prover'
    by_cases h1 : assets < liabilities
    · simp only [generateRealProof, if_pos h1]
    · have h2 : assets - liabilities ≤ threshold := by
        rcases hcond with h | h
        · exact absurd h h1
        · exact h
      simp only [generateRealProof, if_neg h1, if_pos h2]
  · intro hle heq prover
    simp only [generateRealProof, if_neg (by omega : ¬ assets < liabilities),
      if_pos (by omega : assets - liabilities ≤ threshold)]
  · intro hle heq prover
    constructor <;>
    · simp only [generateRealProof,
        if_neg (by omega : ¬ assets < liabilities),
        if_neg (by omega : ¬ assets - liabilities ≤ threshold)]
      cases hp : prover assets liabilities threshold with
      | none => simp
      | some pr =>
        obtain ⟨sp, ps0⟩ := pr
        simp

theorem claim_C5_witness :
    generateRealProof proverW keccakW 1000000 500000 500000 =
      .error .capitalAdequacyCheckFailed ∧
    generateRealProof proverW keccakW 1000001 500000 500000 ≠
      .error .assetsMustBeGteLiabilities ∧
    generateRealProof proverW keccakW 1000001 500000 500000 ≠
      .error .capitalAdequacyCheckFailed := by
  have h3 := (claim_C5_precheck keccakW 1000000 500000 500000).2.2.1
    (by decide) (by decide) proverW
  have h4 := (claim_C5_precheck keccakW 1000001 500000 500000).2.2.2
    (by decide) (by decide) proverW
  exact ⟨h3, h4.1, h4.2⟩

/-! ## Claims C1, C2, C4 -/

/-- Counterexample to claim C1 as stated: `verifyProofSimple` (whose
`SIGNER_ROLE` check is commented out in the source) accepts a submission
from address 9 on a state whose role table is empty — the recorded signer
of an accepted submission need not hold the Signer role. -/
theorem claim_C1_counterexample :
    verifyProofSimple envW stNoRoles 9 100 pfW 5 =
      .ok (stSimpleW, ⟨9, 9, 42, 5, true, 100⟩, true) ∧
    stNoRoles.hasRole SIGNER_ROLE 9 = false ∧
    isVerified stSimpleW 9 = true :=
  ⟨rfl, rfl, rfl⟩

/-- Claim C1 (amended): every submission accepted through `verifyProof`
has a recorded signer holding the Signer role, a proof the Proof Verifier
returned true for, and Active (unpaused) state at acceptance; a
submission accepted through the permissionless `verifyProofSimple`
likewise requires the verifier to return true and Active state, but
records the caller as signer with NO Signer-role requirement. -/
theorem claim_C1_acceptance_conditions (env : Env) (st : GatewayState)
    (sender ts : Nat) (pf : G16Proof) (ps : Nat) (sig : List Nat)
    (st' : GatewayState) (ev : ProofVerifiedEvent) (v : Bool) :
    (verifyProof env st sender ts pf ps sig = .ok (st', ev, v) →
      st.hasRole SIGNER_ROLE ev.signer = true ∧
      env.zkVerify pf ps = true ∧ st.paused = false ∧
      isVerified st' ev.signer = true) ∧
    (verifyProofSimple env st sender ts pf ps = .ok (st', ev, v) →
      env.zkVerify pf ps = true ∧ st.paused = false ∧
      ev.signer = sender ∧ isVerified st' sender = true) := by
  constructor
  · intro h
    obtain ⟨signer, hrec, hpause, hused, hrole, hzk, hvv, hev, hst⟩ :=
      verifyProof_ok env st sender ts pf ps sig st' ev v h
    subst hev
    subst hst
    exact ⟨hrole, hzk, hpause, by simp [isVerified]⟩
  · intro h
    obtain ⟨hpause, hused, hzk, hvv, hev, hst⟩ :=
      verifyProofSimple_ok env st sender ts pf ps st' ev v h
    subst hev
    subst hst
    exact ⟨hzk, hpause, rfl, by simp [isVerified]⟩

theorem claim_C1_witness :
    (stW.hasRole SIGNER_ROLE evPW.signer = true ∧
      envW.zkVerify pfW 5 = true ∧ stW.paused = false ∧
      isVerified stPW evPW.signer = true) ∧
    (envW.zkVerify pfW 5 = true ∧ stNoRoles.paused = false ∧
      (⟨9, 9, 42, 5, true, 100⟩ : ProofVerifiedEvent).signer = 9 ∧
      isVerified stSimpleW 9 = true) := by
  constructor
  · exact (claim_C1_acceptance_conditions envW stW 3 100 pfW 5 [0]
      stPW evPW true).1 rfl
  · exact (claim_C1_acceptance_conditions envW stNoRoles 9 100 pfW 5 [0]
      stSimpleW ⟨9, 9, 42, 5, true, 100⟩ true).2 rfl

/-- Counterexample to claim C2 as stated: when the first of two identical
submissions itself reverts (here: the Proof Verifier rejects), the second
identical call reverts with the SAME error `InvalidProof`, not
`ProofAlreadyUsed` — the state is unchanged by the failed first call, so
the replay flag is never set. -/
theorem claim_C2_counterexample :
    verifyProof envRejW stW 3 100 pfW 5 [0] = .error .invalidProof ∧
    applyOp envRejW stW (.verify 3 100 pfW 5 [0]) = stW ∧
    (Except.error .invalidProof :
        Except VerifyError (GatewayState × ProofVerifiedEvent × Bool)) ≠
      .error .proofAlreadyUsed := by
  refine ⟨rfl, rfl, fun hcontra => ?_⟩
  exact VerifyError.noConfusion (Except.error.inj hcontra)

/-- Claim C2 (amended): if the first of two identical submissions of the
same `(proof, publicSignals, signature)` succeeds, the second call always
fails with `ProofAlreadyUsed` — under any environment that agrees on
keccak, i.e. for arbitrary signature-recovery and verifier behaviour
(the replay check runs before signature recovery and before the Proof
Verifier is invoked) and for any caller, timestamp and signature; the
failing call leaves all state unchanged, and the global success counter
increases by at most 1 across the two calls. -/
theorem claim_C2_replay_after_success (env env' : Env) (st : GatewayState)
    (sender ts sender' ts' : Nat) (pf : G16Proof) (ps : Nat)
    (sig sig' : List Nat) (st₁ : GatewayState) (ev : ProofVerifiedEvent)
    (v : Bool) (hk : env'.keccak = env.keccak)
    (h1 : verifyProof env st sender ts pf ps sig = .ok (st₁, ev, v)) :
    verifyProof env' st₁ sender' ts' pf ps sig' =
      .error .proofAlreadyUsed ∧
    applyOp env' st₁ (.verify sender' ts' pf ps sig') = st₁ ∧
    st₁.totalVerifications ≤ st.totalVerifications + 1 := by
  obtain ⟨signer, hrec, hpause, hused, hrole, hzk, hvv, hev, hst⟩ :=
    verifyProof_ok env st sender ts pf ps sig st₁ ev v h1
  have hkey : env'.keccak (gatewayEncode pf ps) =
      env.keccak (gatewayEncode pf ps) := by rw [hk]
  have hpaused₁ : st₁.paused = false := by rw [hst]; exact hpause
  have hused₁ : st₁.usedProofHashes (env'.keccak (gatewayEncode pf ps))
      = true := by
    rw [hst, hkey]
    simp [proofHashOf]
  have hfail : verifyProof env' st₁ sender' ts' pf ps sig' =
      .error .proofAlreadyUsed := by
    simp [verifyProof, proofHashOf, hpaused₁, hused₁]
  refine ⟨hfail, by simp [applyOp, hfail], ?_⟩
  rw [hst]
  exact Nat.mod_le _ _

theorem claim_C2_witness :
    verifyProof envW stPW 4 200 pfW 5 [1] = .error .proofAlreadyUsed ∧
    applyOp envW stPW (.verify 4 200 pfW 5 [1]) = stPW ∧
    stPW.totalVerifications ≤ stW.totalVerifications + 1 :=
  claim_C2_replay_after_success envW envW stW 3 100 4 200 pfW 5 [0] [1]
    stPW evPW true rfl rfl

/-- Counterexample to claim C4 as stated: not every mutating call fails
while the state is Paused — `grantRole` (AccessControl carries no pause
guard) succeeds and changes the role table, and `unpause` succeeds and
clears the pause flag. -/
theorem claim_C4_counterexample :
    stPausedW.paused = true ∧
    (applyOp envW stPausedW (.grant 7 SIGNER_ROLE 8)).hasRole SIGNER_ROLE 8
      = true ∧
    stPausedW.hasRole SIGNER_ROLE 8 = false ∧
    (applyOp envW stPausedW (.doUnpause 7)).paused = false :=
  ⟨rfl, rfl, rfl, rfl⟩

/-- Claim C4 (amended): while the Gateway is Paused, both proof-submission
entry points — and `pause` itself — fail immediately regardless of proof
validity, authorization or replay status (for every environment and all
arguments), with no state change; role administration and `unpause`
remain available.  After `unpause` the same submissions behave exactly as
they would have before the pause: pausing and then unpausing restores the
exact prior state. -/
theorem claim_C4_pause_dominance (st : GatewayState)
    (hpaused : st.paused = true) :
    (∀ env sender ts pf ps sig,
      verifyProof env st sender ts pf ps sig = .error .enforcedPause ∧
      applyOp env st (.verify sender ts pf ps sig) = st) ∧
    (∀ env sender ts pf ps,
      verifyProofSimple env st sender ts pf ps = .error .enforcedPause ∧
      applyOp env st (.verifySimple sender ts pf ps) = st) ∧
    (∀ sender, ∃ e, pause st sender = .error e) ∧
    (∀ st₀ : GatewayState, ∀ s₁ s₂ : Nat, ∀ st₁ st₂ : GatewayState,
      pause st₀ s₁ = .ok st₁ → unpause st₁ s₂ = .ok st₂ → st₂ = st₀) := by
  refine ⟨?_, ?_, ?_, ?_⟩
  · intro env sender ts pf ps sig
    have hfail : verifyProof env st sender ts pf ps sig =
        .error .enforcedPause := by
      simp [verifyProof, hpaused]
    exact ⟨hfail, by simp [applyOp, hfail]⟩
  · intro env sender ts pf ps
    have hfail : verifyProofSimple env st sender ts pf ps =
        .error .enforcedPause := by
      simp [verifyProofSimple, hpaused]
    exact ⟨hfail, by simp [applyOp, hfail]⟩
  · intro sender
    by_cases hr : st.hasRole PAUSER_ROLE sender = true
    · exact ⟨.enforcedPause, by simp [pause, hr, hpaused]⟩
    · exact ⟨.missingRole, by simp [pause, hr]⟩
  · intro st₀ s₁ s₂ st₁ st₂ hp hu
    unfold pause at hp
    split at hp
    · split at hp
      · exact absurd hp (by simp)
      · rename_i hr0 hp0
        simp only [Except.ok.injEq] at hp
        subst hp
        unfold unpause at hu
        split at hu
        · split at hu
          · simp only [Except.ok.injEq] at hu
            subst hu
            cases st₀
            simp only [Bool.not_eq_true] at hp0
            rw [hp0]
          · exact absurd hu (by simp)
        · exact absurd hu (by simp)
    · exact absurd hp (by simp)

theorem claim_C4_witness :
    (verifyProof envW stPausedW 3 100 pfW 5 [0] = .error .enforcedPause ∧
      applyOp envW stPausedW (.verify 3 100 pfW 5 [0]) = stPausedW) ∧
    (verifyProofSimple envW stPausedW 3 100 pfW 5 =
        .error .enforcedPause ∧
      applyOp envW stPausedW (.verifySimple 3 100 pfW 5) = stPausedW) ∧
    { { stW with paused := true } with paused := false } = stW := by
  have h := claim_C4_pause_dominance stPausedW rfl
  have hp1 : pause stW 7 = .ok { stW with paused := true } := rfl
  have hp2 : unpause { stW with paused := true } 7 =
      .ok { { stW with paused := true } with paused := false } := rfl
  exact ⟨h.1 envW 3 100 pfW 5 [0], h.2.1 envW 3 100 pfW 5,
    h.2.2.2 stW 7 7 _ _ hp1 hp2⟩

/-! ## Claims C8, C9, C10 -/

/-- Claim C8: a successful `verifyProof` overwrites only the recorded
signer's VerificationRecord (last-write-wins over any earlier record for
that signer) and marks only the submitted commitment used; the records of
every other signer, the used flag of every other commitment, the role
table and the pause flag are unchanged. -/
theorem claim_C8_frame_conditions (env : Env) (st : GatewayState)
    (sender ts : Nat) (pf : G16Proof) (ps : Nat) (sig : List Nat)
    (st' : GatewayState) (ev : ProofVerifiedEvent) (v : Bool)
    (h : verifyProof env st sender ts pf ps sig = .ok (st', ev, v)) :
    st'.verifications ev.signer =
      ⟨proofHashOf env pf ps, ts % 2 ^ 64, ps % 2 ^ 64, true⟩ ∧
    (∀ a, a ≠ ev.signer → st'.verifications a = st.verifications a) ∧
    st'.usedProofHashes (proofHashOf env pf ps) = true ∧
    (∀ c, c ≠ proofHashOf env pf ps →
      st'.usedProofHashes c = st.usedProofHashes c) ∧
    st'.hasRole = st.hasRole ∧
    st'.paused = st.paused := by
  obtain ⟨signer, hrec, hpause, hused, hrole, hzk, hvv, hev, hst⟩ :=
    verifyProof_ok env st sender ts pf ps sig st' ev v h
  subst hev
  subst hst
  refine ⟨by simp, ?_, by simp, ?_, rfl, rfl⟩
  · intro a ha
    have ha' : a ≠ signer := ha
    simp [ha']
  · intro c hc
    simp [hc]

theorem claim_C8_witness :
    stPW.verifications evPW.signer = ⟨42, 100, 5, true⟩ ∧
    stPW.verifications 8 = stW.verifications 8 ∧
    stPW.usedProofHashes 42 = true ∧
    stPW.usedProofHashes 43 = stW.usedProofHashes 43 ∧
    stPW.hasRole = stW.hasRole ∧
    stPW.paused = stW.paused := by
  have h := claim_C8_frame_conditions envW stW 3 100 pfW 5 [0]
    stPW evPW true rfl
  exact ⟨h.1, h.2.1 8 (by decide), h.2.2.1, h.2.2.2.1 43 (by decide),
    h.2.2.2.2.1, h.2.2.2.2.2⟩

/-- Claim C9: on every accepted `verifyProof` submission, the stored
VerificationRecord's threshold equals `publicSignals[0]` reduced modulo
`2^64` (the `uint64` cast), while the emitted event carries the full
256-bit `publicSignals[0]`; hence for any accepted submission with
`publicSignals[0] ≥ 2^64`, `getVerification` reports a threshold
different from the one in the event stream. -/
theorem claim_C9_threshold_truncation (env : Env) (st : GatewayState)
    (sender ts : Nat) (pf : G16Proof) (ps : Nat) (sig : List Nat)
    (st' : GatewayState) (ev : ProofVerifiedEvent) (v : Bool)
    (h : verifyProof env st sender ts pf ps sig = .ok (st', ev, v)) :
    (getVerification st' ev.signer).2.2.1 = ps % 2 ^ 64 ∧
    ev.threshold = ps ∧
    (2 ^ 64 ≤ ps → (getVerification st' ev.signer).2.2.1 ≠ ev.threshold) := by
  obtain ⟨signer, hrec, hpause, hused, hrole, hzk, hvv, hev, hst⟩ :=
    verifyProof_ok env st sender ts pf ps sig st' ev v h
  have h1 : (getVerification st' ev.signer).2.2.1 = ps % 2 ^ 64 := by
    subst hev
    subst hst
    simp [getVerification]
  have h2 : ev.threshold = ps := by
    subst hev
    rfl
  refine ⟨h1, h2, fun hge => ?_⟩
  rw [h1, h2]
  have hlt : ps % 2 ^ 64 < 2 ^ 64 := Nat.mod_lt _ (by norm_num)
  omega

theorem claim_C9_witness :
    (getVerification stP64W evP64W.signer).2.2.1 = 2 ^ 64 % 2 ^ 64 ∧
    evP64W.threshold = 2 ^ 64 ∧
    (getVerification stP64W evP64W.signer).2.2.1 ≠ evP64W.threshold := by
  have hok : verifyProof envW stW 3 100 pfW (2 ^ 64) [0] =
      .ok (stP64W, evP64W, true) := by rfl
  have h := claim_C9_threshold_truncation envW stW 3 100 pfW (2 ^ 64) [0]
    stP64W evP64W true hok
  exact ⟨h.1, h.2.1, h.2.2 (le_refl _)⟩

/-- One mutating call never falsifies a `verified` flag. -/
theorem isVerified_applyOp (env : Env) (st : GatewayState) (op : Op)
    (a : Nat) (hv : isVerified st a = true) :
    isVerified (applyOp env st op) a = true := by
  cases op with
  | verify sender ts pf ps sig =>
    simp only [applyOp]
    cases hres : verifyProof env st sender ts pf ps sig with
    | error e => exact hv
    | ok r =>
      obtain ⟨st', ev, v⟩ := r
      obtain ⟨signer, hrec, hpause, hused, hrole, hzk, hvv, hev, hst⟩ :=
        verifyProof_ok env st sender ts pf ps sig st' ev v hres
      show isVerified st' a = true
      subst hst
      by_cases ha : a = signer
      · simp [isVerified, ha]
      · simpa [isVerified, ha] using hv
  | verifySimple sender ts pf ps =>
    simp only [applyOp]
    cases hres : verifyProofSimple env st sender ts pf ps with
    | error e => exact hv
    | ok r =>
      obtain ⟨st', ev, v⟩ := r
      obtain ⟨hpause, hused, hzk, hvv, hev, hst⟩ :=
        verifyProofSimple_ok env st sender ts pf ps st' ev v hres
      show isVerified st' a = true
      subst hst
      by_cases ha : a = sender
      · simp [isVerified, ha]
      · simpa [isVerified, ha] using hv
  | doPause sender =>
    simp only [applyOp]
    cases hres : pause st sender with
    | error e => exact hv
    | ok st' =>
      show isVerified st' a = true
      unfold pause at hres
      split at hres
      · split at hres
        · exact absurd hres (by simp)
        · simp only [Except.ok.injEq] at hres
          subst hres
          exact hv
      · exact absurd hres (by simp)
  | doUnpause sender =>
    simp only [applyOp]
    cases hres : unpause st sender with
    | error e => exact hv
    | ok st' =>
      show isVerified st' a = true
      unfold unpause at hres
      split at hres
      · split at hres
        · simp only [Except.ok.injEq] at hres
          subst hres
          exact hv
        · exact absurd hres (by simp)
      · exact absurd hres (by simp)
  | grant sender role acct =>
    simp only [applyOp]
    cases hres : grantRole st sender role acct with
    | error e => exact hv
    | ok st' =>
      show isVerified st' a = true
      unfold grantRole at hres
      split at hres
      · simp only [Except.ok.injEq] at hres
        subst hres
        exact hv
      · exact absurd hres (by simp)
  | revoke sender role acct =>
    simp only [applyOp]
    cases hres : revokeRole st sender role acct with
    | error e => exact hv
    | ok st' =>
      show isVerified st' a = true
      unfold revokeRole at hres
      split at hres
      · simp only [Except.ok.injEq] at hres
        subst hres
        exact hv
      · exact absurd hres (by simp)

/-- One mutating call never clears a used-commitment entry. -/
theorem used_applyOp (env : Env) (st : GatewayState) (op : Op) (c : Nat)
    (hc : st.usedProofHashes c = true) :
    (applyOp env st op).usedProofHashes c = true := by
  cases op with
  | verify sender ts pf ps sig =>
    simp only [applyOp]
    cases hres : verifyProof env st sender ts pf ps sig with
    | error e => exact hc
    | ok r =>
      obtain ⟨st', ev, v⟩ := r
      obtain ⟨signer, hrec, hpause, hused, hrole, hzk, hvv, hev, hst⟩ :=
        verifyProof_ok env st sender ts pf ps sig st' ev v hres
      show st'.usedProofHashes c = true
      subst hst
      by_cases hch : c = proofHashOf env pf ps
      · simp [hch]
      · simpa [hch] using hc
  | verifySimple sender ts pf ps =>
    simp only [applyOp]
    cases hres : verifyProofSimple env st sender ts pf ps with
    | error e => exact hc
    | ok r =>
      obtain ⟨st', ev, v⟩ := r
      obtain ⟨hpause, hused, hzk, hvv, hev, hst⟩ :=
        verifyProofSimple_ok env st sender ts pf ps st' ev v hres
      show st'.usedProofHashes c = true
      subst hst
      by_cases hch : c = proofHashOf env pf ps
      · simp [hch]
      · simpa [hch] using hc
  | doPause sender =>
    simp only [applyOp]
    cases hres : pause st sender with
    | error e => exact hc
    | ok st' =>
      show st'.usedProofHashes c = true
      unfold pause at hres
      split at hres
      · split at hres
        · exact absurd hres (by simp)
        · simp only [Except.ok.injEq] at hres
          subst hres
          exact hc
      · exact absurd hres (by simp)
  | doUnpause sender =>
    simp only [applyOp]
    cases hres : unpause st sender with
    | error e => exact hc
    | ok st' =>
      show st'.usedProofHashes c = true
      unfold unpause at hres
      split at hres
      · split at hres
        · simp only [Except.ok.injEq] at hres
          subst hres
          exact hc
        · exact absurd hres (by simp)
      · exact absurd hres (by simp)
  | grant sender role acct =>
    simp only [applyOp]
    cases hres : grantRole st sender role acct with
    | error e => exact hc
    | ok st' =>
      show st'.usedProofHashes c = true
      unfold grantRole at hres
      split at hres
      · simp only [Except.ok.injEq] at hres
        subst hres
        exact hc
      · exact absurd hres (by simp)
  | revoke sender role acct =>
    simp only [applyOp]
    cases hres : revokeRole st sender role acct with
    | error e => exact hc
    | ok st' =>
      show st'.usedProofHashes c = true
      unfold revokeRole at hres
      split at hres
      · simp only [Except.ok.injEq] at hres
        subst hres
        exact hc
      · exact absurd hres (by simp)

theorem isVerified_applyOps (env : Env) (ops : List Op) :
    ∀ st a, isVerified st a = true →
      isVerified (applyOps env st ops) a = true := by
  induction ops with
  | nil => intro st a hv; exact hv
  | cons op ops ih =>
    intro st a hv
    exact ih (applyOp env st op) a (isVerified_applyOp env st op a hv)

theorem used_applyOps (env : Env) (ops : List Op) :
    ∀ st c, st.usedProofHashes c = true →
      (applyOps env st ops).usedProofHashes c = true := by
  induction ops with
  | nil => intro st c hc; exact hc
  | cons op ops ih =>
    intro st c hc
    exact ih (applyOp env st op) c (used_applyOp env st op c hc)

/-- Claim C10: once `isVerified` returns true for an address it returns
true after every subsequent sequence of Gateway operations — every write
to the verification map stores `verified = true`, no operation deletes or
falsifies a record, and no operation clears an entry of the
used-commitment set: verification is irrevocable. -/
theorem claim_C10_verification_irrevocable (env : Env) (st : GatewayState)
    (a : Nat) (ops : List Op) (hv : isVerified st a = true) :
    isVerified (applyOps env st ops) a = true ∧
    (∀ c, st.usedProofHashes c = true →
      (applyOps env st ops).usedProofHashes c = true) :=
  ⟨isVerified_applyOps env ops st a hv,
    fun c hc => used_applyOps env ops st c hc⟩

theorem claim_C10_witness :
    isVerified (applyOps envW stPW
      [Op.doPause 7, Op.doUnpause 7, Op.verifySimple 9 100 pfW 5,
        Op.revoke 7 SIGNER_ROLE 7]) 7 = true ∧
    (applyOps envW stPW
      [Op.doPause 7, Op.doUnpause 7, Op.verifySimple 9 100 pfW 5,
        Op.revoke 7 SIGNER_ROLE 7]).usedProofHashes 42 = true := by
  have h := claim_C10_verification_irrevocable envW stPW 7
    [Op.doPause 7, Op.doUnpause 7, Op.verifySimple 9 100 pfW 5,
      Op.revoke 7 SIGNER_ROLE 7] rfl
  exact ⟨h.1, h.2 42 rfl⟩

end ProofX
